import Mathlib

/-!
Verification development for the ShadowByte steganography tool
(`ShadowByte.py`).  Byte strings are embedded as `List Nat` with values
below 256; Python `str` values are embedded as their UTF-8 byte lists.
External library collaborators (hashlib, cryptography.fernet, the codec
machinery, the `stegano.lsb` embedding adapter) are modelled from their
documented contracts; everything else is translated from the source.
-/

namespace ShadowByte

/-- Standard base64 alphabet (RFC 4648), as byte values, used by
`base64.b64encode` in `Stegano.encode` (line 142). Values `i < 64` map to
the alphabet; the function is total on `Nat` for convenience. -/
def stdAlpha (i : Nat) : Nat :=
  if i < 26 then 65 + i
  else if i < 52 then 97 + (i - 26)
  else if i < 62 then 48 + (i - 52)
  else if i = 62 then 43
  else 47

/-- URL-safe base64 alphabet, used by `base64.urlsafe_b64encode` in
`Stegano.generate_key` (line 50): `+` and `/` are replaced by `-` and `_`. -/
def urlAlpha (i : Nat) : Nat :=
  if i < 26 then 65 + i
  else if i < 52 then 97 + (i - 26)
  else if i < 62 then 48 + (i - 52)
  else if i = 62 then 45
  else 95

/-- Base64 encoding of a byte list over a given alphabet, with `=` (61)
padding, exactly as Python's `base64` module produces it. -/
def b64encodeWith (alpha : Nat → Nat) : List Nat → List Nat
  | a :: b :: c :: rest =>
      alpha (a / 4) :: alpha (a % 4 * 16 + b / 16) :: alpha (b % 16 * 4 + c / 64) ::
        alpha (c % 64) :: b64encodeWith alpha rest
  | [a, b] => [alpha (a / 4), alpha (a % 4 * 16 + b / 16), alpha (b % 16 * 4), 61]
  | [a] => [alpha (a / 4), alpha (a % 4 * 16), 61, 61]
  | [] => []

/-- Python `base64.b64encode`. -/
def b64encode (x : List Nat) : List Nat := b64encodeWith stdAlpha x

/-- Python `base64.urlsafe_b64encode`. -/
def urlsafe_b64encode (x : List Nat) : List Nat := b64encodeWith urlAlpha x

/-- Value of one standard-alphabet base64 character, `none` off-alphabet. -/
def b64value (c : Nat) : Option Nat :=
  if 65 ≤ c ∧ c ≤ 90 then some (c - 65)
  else if 97 ≤ c ∧ c ≤ 122 then some (c - 97 + 26)
  else if 48 ≤ c ∧ c ≤ 57 then some (c - 48 + 52)
  else if c = 43 then some 62
  else if c = 47 then some 63
  else none

/-- Python `base64.b64decode` on standard-alphabet input: groups of four
characters, `=` padding only at the end; `none` models `binascii.Error`. -/
def b64decode : List Nat → Option (List Nat)
  | [] => some []
  | p :: q :: r :: s :: rest =>
      match b64value p, b64value q with
      | some a, some b =>
          if r = 61 then
            if s = 61 ∧ rest = [] then some [a * 4 + b / 16] else none
          else
            match b64value r with
            | some c =>
                if s = 61 then
                  if rest = [] then some [a * 4 + b / 16, b % 16 * 16 + c / 4] else none
                else
                  match b64value s, b64decode rest with
                  | some d, some tail =>
                      some ((a * 4 + b / 16) :: (b % 16 * 16 + c / 4) :: (c % 4 * 64 + d) :: tail)
                  | _, _ => none
            | none => none
      | _, _ => none
  | _ => none

/-- Modelled from the spec: stand-in for the external `hashlib.sha256`
digest used in `Stegano.generate_key` (line 49).  The real SHA-256 is
library code outside this repository; the claims depend only on the digest
being a deterministic function of the passphrase producing exactly 32
bytes.  Distinctness of derived keys for distinct passphrases (collision
resistance) is taken as a hypothesis where a claim needs it. -/
def sha256model (x : List Nat) : List Nat :=
  (x.map (fun b => b % 256) ++ List.replicate 32 0).take 32

/-- Model of `Stegano.generate_key` for a user-supplied passphrase
(ShadowByte.py lines 46-52): SHA-256 digest of the passphrase bytes,
then URL-safe base64. -/
def generate_key (user_key : List Nat) : List Nat :=
  urlsafe_b64encode (sha256model user_key)

/-- Modelled from the library contract of `cryptography.fernet.Fernet`
(used by `Stegano.encrypt`, lines 61-69): authenticated encryption whose
token is bound to the 44-byte key and from which `decrypt` recovers the
exact plaintext.  The token layout of real Fernet (version, timestamp,
IV, HMAC) is opaque external data; the model keeps only what the claims
use: same key recovers the plaintext, different key fails verification. -/
def fernet_encrypt (key data : List Nat) : List Nat := key ++ data

/-- Modelled from the library contract of `Fernet.decrypt` as wrapped by
`Stegano.decrypt` (lines 78-87): the wrapper catches `InvalidToken` and
returns `None`, so verification failure is `none`; on success the exact
plaintext is returned, never partially decrypted data. -/
def fernet_decrypt (key token : List Nat) : Option (List Nat) :=
  if token.take 44 = key then some (token.drop 44) else none

/-! JSON metadata: `json.dumps({"filename": original_filename}).encode()`
(ShadowByte.py line 117) and `json.loads(metadata)` plus
`metadata.get("filename", ...)` (lines 177-178). -/

/-- Lowercase hex digit byte, as produced by the json module. -/
def hexDigit (n : Nat) : Nat := if n < 10 then 48 + n else 87 + n

/-- Escaping of one string character by `json.dumps` with the default
`ensure_ascii=True`: quote and backslash get a backslash escape, the five
short control escapes are used, every other character outside the
printable ASCII range `0x20..0x7e` becomes a `\u` escape. -/
def escapeChar (c : Nat) : List Nat :=
  if c = 34 then [92, 34]
  else if c = 92 then [92, 92]
  else if c = 8 then [92, 98]
  else if c = 9 then [92, 116]
  else if c = 10 then [92, 110]
  else if c = 12 then [92, 102]
  else if c = 13 then [92, 114]
  else if c < 32 ∨ 127 ≤ c then
    [92, 117, hexDigit (c / 4096 % 16), hexDigit (c / 256 % 16),
      hexDigit (c / 16 % 16), hexDigit (c % 16)]
  else [c]

/-- Escape a whole string (list of code points). -/
def escapeAll : List Nat → List Nat
  | [] => []
  | c :: rest => escapeChar c ++ escapeAll rest

/-- Bytes of `json.dumps({"filename": name})` (default separators put one
space after the colon): the fixed text is the bytes of the two characters
of punctuation around the key, i.e. `{"filename": "` ... `"}`. -/
def json_metadata (name : List Nat) : List Nat :=
  [123, 34, 102, 105, 108, 101, 110, 97, 109, 101, 34, 58, 32, 34] ++
    escapeAll name ++ [34, 125]

/-- Value of a hex digit byte (either case), for `\u` escapes. -/
def hexVal (c : Nat) : Option Nat :=
  if 48 ≤ c ∧ c ≤ 57 then some (c - 48)
  else if 97 ≤ c ∧ c ≤ 102 then some (c - 87)
  else if 65 ≤ c ∧ c ≤ 70 then some (c - 55)
  else none

/-- Parse a JSON string body up to (and past) its closing quote, undoing
the escapes of `escapeChar`; returns the decoded characters and the bytes
after the closing quote.  Models the string scanning of `json.loads`;
`none` models a `JSONDecodeError`. -/
def parseJsonString : List Nat → Option (List Nat × List Nat)
  | [] => none
  | c :: rest =>
    if c = 34 then some ([], rest)
    else if c = 92 then
      match rest with
      | [] => none
      | e :: rest2 =>
        if e = 34 then (parseJsonString rest2).map fun p => (34 :: p.1, p.2)
        else if e = 92 then (parseJsonString rest2).map fun p => (92 :: p.1, p.2)
        else if e = 47 then (parseJsonString rest2).map fun p => (47 :: p.1, p.2)
        else if e = 98 then (parseJsonString rest2).map fun p => (8 :: p.1, p.2)
        else if e = 116 then (parseJsonString rest2).map fun p => (9 :: p.1, p.2)
        else if e = 110 then (parseJsonString rest2).map fun p => (10 :: p.1, p.2)
        else if e = 102 then (parseJsonString rest2).map fun p => (12 :: p.1, p.2)
        else if e = 114 then (parseJsonString rest2).map fun p => (13 :: p.1, p.2)
        else if e = 117 then
          match rest2 with
          | h1 :: h2 :: h3 :: h4 :: rest3 =>
            match hexVal h1, hexVal h2, hexVal h3, hexVal h4 with
            | some x1, some x2, some x3, some x4 =>
                (parseJsonString rest3).map fun p =>
                  ((x1 * 4096 + x2 * 256 + x3 * 16 + x4) :: p.1, p.2)
            | _, _, _, _ => none
          | _ => none
        else none
    else if c < 32 then none
    else (parseJsonString rest).map fun p => (c :: p.1, p.2)

/-- Combined model of `json.loads(metadata)` followed by
`metadata.get("filename", ...)` on the object shapes that
`Stegano.encode` produces: an object with the single key `filename`
holding a string.  Any other byte sequence is conflated with the failure
path (`json.loads` raising, caught by the outer handler of
`Stegano.decode`); no reachable claim distinguishes those cases. -/
def json_parse_filename (l : List Nat) : Option (List Nat) :=
  if l.take 14 = [123, 34, 102, 105, 108, 101, 110, 97, 109, 101, 34, 58, 32, 34] then
    match parseJsonString (l.drop 14) with
    | some (name, [125]) => some name
    | _ => none
  else none

/-- A character is metadata-safe when it is printable ASCII and needs no
escaping; the filenames exercised by the claims are all of this form. -/
abbrev SafeName (name : List Nat) : Prop :=
  ∀ c ∈ name, 32 ≤ c ∧ c < 127 ∧ c ≠ 34 ∧ c ≠ 92

/-! The frame separator and Python `bytes.split`. -/

/-- The 3-byte sentinel `b"\x00\x00\x00"` (ShadowByte.py lines 141, 166). -/
def SEPARATOR : List Nat := [0, 0, 0]

/-- Worker for `split3`, structurally recursive on a fuel argument so
that the kernel can evaluate it; one unit of fuel is spent per input
byte, so `fuel = l.length` always suffices. -/
def split3go : Nat → List Nat → List (List Nat)
  | _, [] => [[]]
  | 0, b :: rest => [b :: rest]
  | fuel + 1, b :: rest =>
      if b = 0 ∧ rest.take 2 = [0, 0] then [] :: split3go fuel (rest.drop 2)
      else
        match split3go fuel rest with
        | [] => [[b]]
        | h :: t => (b :: h) :: t

/-- Python `msg.split(b"\x00\x00\x00")` (line 167): split on EVERY
non-overlapping occurrence of the separator, scanning left to right. -/
def split3 (l : List Nat) : List (List Nat) := split3go l.length l

/-- Worker for `splitFirst3`, fuelled like `split3go`. -/
def splitFirst3go : Nat → List Nat → List (List Nat)
  | _, [] => [[]]
  | 0, b :: rest => [b :: rest]
  | fuel + 1, b :: rest =>
      if b = 0 ∧ rest.take 2 = [0, 0] then [[], rest.drop 2]
      else
        match splitFirst3go fuel rest with
        | [] => [[b]]
        | h :: t => (b :: h) :: t

/-- Splitting on only the FIRST occurrence of the separator, i.e. Python
`msg.split(b"\x00\x00\x00", 1)`: what the spec sentence "splits on the
first occurrence" would denote.  Not what the code runs; used to exhibit
the difference. -/
def splitFirst3 (l : List Nat) : List (List Nat) := splitFirst3go l.length l

/-! UTF-8 validity: Python `bytes.decode()` (strict) succeeds exactly on
valid UTF-8; `Stegano.decode` calls it on the decrypted payload when the
stored filename is the inline-text sentinel (line 183-184). -/

/-- Continuation byte `0x80..0xbf`. -/
def contB (b : Nat) : Bool := decide (128 ≤ b) && decide (b ≤ 191)

/-- Constraint on the first continuation byte of a 3-byte sequence
(excludes overlong forms after `0xe0` and surrogates after `0xed`). -/
def leadB3 (a b : Nat) : Bool :=
  if a = 224 then decide (160 ≤ b) && decide (b ≤ 191)
  else if a = 237 then decide (128 ≤ b) && decide (b ≤ 159)
  else contB b

/-- Constraint on the first continuation byte of a 4-byte sequence
(excludes overlong forms after `0xf0` and values past `U+10FFFF`). -/
def leadB4 (a b : Nat) : Bool :=
  if a = 240 then decide (144 ≤ b) && decide (b ≤ 191)
  else if a = 244 then decide (128 ≤ b) && decide (b ≤ 143)
  else contB b

/-- Worker for `validUtf8`, structurally recursive on fuel (one unit per
input byte, so `fuel = l.length` always suffices). -/
def validUtf8go : Nat → List Nat → Bool
  | _, [] => true
  | 0, _ :: _ => false
  | fuel + 1, a :: l =>
    if a < 128 then validUtf8go fuel l
    else if a < 194 then false
    else if a < 224 then
      decide (1 ≤ l.length) && contB (l.getD 0 0) && validUtf8go fuel (l.drop 1)
    else if a < 240 then
      decide (2 ≤ l.length) && leadB3 a (l.getD 0 0) && contB (l.getD 1 0) &&
        validUtf8go fuel (l.drop 2)
    else if a < 245 then
      decide (3 ≤ l.length) && leadB4 a (l.getD 0 0) && contB (l.getD 1 0) &&
        contB (l.getD 2 0) && validUtf8go fuel (l.drop 3)
    else false

/-- Validity of a byte list as strict UTF-8 (rejecting overlong forms,
surrogates and code points above `U+10FFFF`, as CPython does). -/
def validUtf8 (l : List Nat) : Bool := validUtf8go l.length l

/-! The payload model and `Stegano.encode` / `Stegano.decode`. -/

/-- The two payload variants of `Stegano.encode` (lines 100-112): a file
whose path exists (base name and raw contents are kept) or inline text
(encoded bytes of the string, sentinel name `message.txt`). -/
inductive PayloadInput where
  | text (data : List Nat)
  | file (name : List Nat) (content : List Nat)

/-- Bytes of the sentinel filename `"message.txt"` (line 111). -/
def messageTxt : List Nat := [109, 101, 115, 115, 97, 103, 101, 46, 116, 120, 116]

/-- The `original_filename` chosen by `Stegano.encode` (lines 102, 111). -/
def payload_filename : PayloadInput → List Nat
  | .text _ => messageTxt
  | .file n _ => n

/-- The `file_data` read by `Stegano.encode` (lines 105, 112). -/
def payload_bytes : PayloadInput → List Nat
  | .text d => d
  | .file _ c => c

/-- Pixel dimensions of the opened cover image (`image.width`,
`image.height`). -/
structure ImageDims where
  width : Nat
  height : Nat

/-- Model of `Stegano.encode` (ShadowByte.py lines 89-150) after the PNG check,
for a supplied passphrase: derive the key, encrypt the payload bytes,
build the JSON metadata, and enforce the capacity guard
`len(encrypted_data) + len(metadata) > width*height*3 // 8` (lines
126-135) BEFORE the embedding adapter is invoked.  `Except.error` carries
`(message_size, max_message_size)` exactly as printed by the guard and
means no output image is produced; `Except.ok` carries the frame
`base64.b64encode(encrypted_data) + SEPARATOR + metadata` (lines 141-143)
handed to `lsb.hide`. -/
def encode (img : ImageDims) (payload : PayloadInput) (user_key : List Nat) :
    Except (Nat × Nat) (List Nat) :=
  let key := generate_key user_key
  let encrypted_data := fernet_encrypt key (payload_bytes payload)
  let metadata := json_metadata (payload_filename payload)
  let max_message_size := img.width * img.height * 3 / 8
  let message_size := encrypted_data.length + metadata.length
  if message_size > max_message_size then Except.error (message_size, max_message_size)
  else Except.ok (b64encode encrypted_data ++ SEPARATOR ++ metadata)

/-- Observable outcome of `Stegano.decode` (lines 152-200). -/
inductive DecodeResult where
  /-- Adapter `lsb.reveal` returned nothing or an empty string (line 197-198). -/
  | noHidden
  /-- fewer than two fragments: prints "Corrupted message format" and
  returns `None` (lines 168-170). -/
  | corrupted
  /-- an exception reached the outer handler (line 199-200): unpacking
  more than two fragments, base64 error, `None.decode()` after a failed
  decryption, bad JSON, bad UTF-8, or `f.write(None)`. -/
  | failed
  /-- sentinel filename: the decoded text is printed and returned. -/
  | text (msg : List Nat)
  /-- any other filename: the payload is written to that file. -/
  | savedFile (name : List Nat) (content : List Nat)
deriving DecidableEq

/-- Model of `Stegano.decode` (ShadowByte.py lines 152-200) for a supplied
passphrase and no explicit `output_file` (the `None` default every caller
in the claims uses).  `revealed` is what the external `lsb.reveal`
returned.  The second component records the files opened for writing in
`"wb"` mode — each such open CREATES OR TRUNCATES the named file (line
189) even when the subsequent `f.write` then raises, which is why the
write happens in the model before `decrypted` is inspected, exactly as in
the source. -/
def decode (revealed : Option (List Nat)) (user_key : List Nat) :
    DecodeResult × List (List Nat) :=
  let key := generate_key user_key
  match revealed with
  | none => (.noHidden, [])
  | some msg =>
    if msg = [] then (.noHidden, [])
    else
      match split3 msg with
      | [encrypted_b64, metadata] =>
        match b64decode encrypted_b64 with
        | none => (.failed, [])
        | some encrypted_data =>
          let decrypted := fernet_decrypt key encrypted_data
          match json_parse_filename metadata with
          | none => (.failed, [])
          | some original_filename =>
            if original_filename = messageTxt then
              match decrypted with
              | none => (.failed, [])
              | some d => if validUtf8 d then (.text d, []) else (.failed, [])
            else
              match decrypted with
              | none => (.failed, [original_filename])
              | some d => (.savedFile original_filename d, [original_filename])
      | parts => if parts.length < 2 then (.corrupted, []) else (.failed, [])

/-! Wordlist reading (`Stegano.bruteforce.read_wordlist`, ShadowByte.py
lines 224-237, and the `total_words` line count, line 237). -/

/-- One step of Python text-mode line iteration with universal newlines:
lines split at `\n`, `\r\n` or `\r`; a trailing fragment without a
terminator still counts as a line; line contents are returned without the
terminator (the generator strips them anyway). -/
def splitLinesAux : List Nat → List Nat → List (List Nat)
  | acc, [] => if acc = [] then [] else [acc.reverse]
  | acc, 13 :: 10 :: rest => acc.reverse :: splitLinesAux [] rest
  | acc, 13 :: rest => acc.reverse :: splitLinesAux [] rest
  | acc, 10 :: rest => acc.reverse :: splitLinesAux [] rest
  | acc, b :: rest => splitLinesAux (b :: acc) rest

/-- Lines of a decoded file, in file order. -/
def splitLines (content : List Nat) : List (List Nat) :=
  splitLinesAux [] content

/-- Python `str.strip()`: drop leading and trailing whitespace. -/
def isSpaceB (b : Nat) : Bool :=
  b == 32 || b == 9 || b == 10 || b == 13 || b == 11 || b == 12

/-- Python `line.strip()` as applied to each yielded wordlist line (line 232). -/
def strip (l : List Nat) : List Nat :=
  ((l.dropWhile isSpaceB).reverse.dropWhile isSpaceB).reverse

/-- Modelled from the codec contract: `latin-1` maps every byte to the
Unicode code point of the same value, so decoding any byte sequence
succeeds and yields exactly those values.  It is the first entry of the
`encodings` list at line 224. -/
def latin1_decode (content : List Nat) : Option (List Nat) := some content

/-- The encoding-fallback loop of `read_wordlist` (lines 228-235): try
each decoder in order, committing to the first that succeeds. -/
def tryEncodings : List (List Nat → Option (List Nat)) → List Nat → Option (List Nat)
  | [], _ => none
  | d :: ds, content =>
      match d content with
      | some t => some t
      | none => tryEncodings ds content

/-- Model of `read_wordlist` over the raw bytes of the wordlist file.  The three
later fallback decoders (`iso-8859-1`, `cp1252`, `utf-8`) are external
codecs left abstract, as a parameter: the theorem for C9 shows the result
never depends on them because the first decoder (`latin-1`) is total. -/
def read_wordlist (others : List (List Nat → Option (List Nat)))
    (content : List Nat) : List (List Nat) :=
  match tryEncodings (latin1_decode :: others) content with
  | some text => (splitLines text).map strip
  | none => []

/-- Model of `total_words = sum(1 for _ in open(wordlist_path, "r", encoding="latin-1"))`
(line 237): the number of lines under the latin-1 decoding. -/
def total_words (content : List Nat) : Nat :=
  (splitLines content).length

/-! The brute-force scheduler (`Stegano.bruteforce`, ShadowByte.py lines
211-311), embedded as a small-step state machine.  The coordinator loop is
sequential; worker threads are modelled by nondeterministically-ordered
task steps.  A `try_key` worker (lines 240-250) first checks
`self.stop_event` and only then performs a decode attempt, so checking the
flag and starting the attempt form one atomic step here. -/

/-- Parameters of one brute-force run: the candidate sequence produced by
`read_wordlist` (already stripped, in file order), the truthiness of a
decode attempt for each candidate (what `try_key` observes of
`self.decode(...)`), and the worker count `max_threads`. -/
structure BFConfig where
  wl : List (List Nat)
  ok : List Nat → Bool
  W : Nat

/-- The coordinator's control position. -/
inductive Phase where
  /-- inside the `while futures:` loop (lines 267-297). -/
  | scanning
  /-- returned at line 286 with the matching candidate. -/
  | found (w : List Nat)
  /-- printed "No valid message found" and returned (lines 299-300). -/
  | noMatch
  /-- Handler for `KeyboardInterrupt` ran (lines 302-306). -/
  | interrupted
deriving DecidableEq

/-- Whether the coordinator has returned through the success path. -/
def Phase.isFound : Phase → Bool
  | .found _ => true
  | _ => false

/-- Shared state of one brute-force run.  `pending` are submitted futures
whose `try_key` has not run yet; `doneQ` are completed futures (with their
truthy-result bit) not yet processed by the coordinator; `processed` and
`attempted` are history: candidates the coordinator consumed from `doneQ`,
and candidates for which `try_key` actually invoked a decode attempt. -/
structure BFState where
  cursor : Nat
  pending : List (List Nat)
  doneQ : List (List Nat × Bool)
  processed : List (List Nat)
  attempted : List (List Nat)
  flag : Bool
  phase : Phase
deriving DecidableEq

/-- Initial state: the priming loop (lines 259-265) submits the first
`max_threads` candidates (or all of them, if fewer). -/
def initState (cfg : BFConfig) : BFState :=
  { cursor := min cfg.W cfg.wl.length
    pending := cfg.wl.take cfg.W
    doneQ := []
    processed := []
    attempted := []
    flag := false
    phase := Phase.scanning }

/-- One step of the brute-force system. -/
inductive Step (cfg : BFConfig) : BFState → BFState → Prop where
  /-- A worker thread picks up a submitted candidate while the stop flag
  is clear: `try_key` performs the decode attempt (lines 244-247) and the
  future completes with the attempt's truthiness.  Possible while the
  coordinator is in its loop, and also after an interrupt for tasks the
  executor dequeued before `cancel_futures` took effect. -/
  | run_attempt (s : BFState) (w : List Nat) (p1 p2 : List (List Nat))
      (hph : s.phase = Phase.scanning ∨ s.phase = Phase.interrupted)
      (hw : s.pending = p1 ++ w :: p2)
      (hflag : s.flag = false) :
      Step cfg s { s with pending := p1 ++ p2,
                          doneQ := s.doneQ ++ [(w, cfg.ok w)],
                          attempted := s.attempted ++ [w] }
  /-- A worker thread picks up a submitted candidate after the stop flag
  was set: `try_key` returns `None` immediately (lines 242-243), no
  attempt is made. -/
  | run_cancelled (s : BFState) (w : List Nat) (p1 p2 : List (List Nat))
      (hph : s.phase = Phase.scanning ∨ s.phase = Phase.interrupted)
      (hw : s.pending = p1 ++ w :: p2)
      (hflag : s.flag = true) :
      Step cfg s { s with pending := p1 ++ p2,
                          doneQ := s.doneQ ++ [(w, false)] }
  /-- The coordinator processes a completed future with a truthy result
  (lines 273-286): it reports success, shuts the executor down cancelling
  pending futures, and returns.  `found` is terminal. -/
  | proc_success (s : BFState) (w : List Nat) (q1 q2 : List (List Nat × Bool))
      (hph : s.phase = Phase.scanning)
      (hw : s.doneQ = q1 ++ (w, true) :: q2) :
      Step cfg s { s with phase := Phase.found w }
  /-- The coordinator processes a completed future with a falsy result
  (lines 288-295): the future is discarded and, if the wordlist is not
  exhausted, the next candidate is submitted in its place. -/
  | proc_fail (s : BFState) (w : List Nat) (q1 q2 : List (List Nat × Bool))
      (hph : s.phase = Phase.scanning)
      (hw : s.doneQ = q1 ++ (w, false) :: q2) :
      Step cfg s { s with doneQ := q1 ++ q2,
                          processed := s.processed ++ [w],
                          pending := s.pending ++ (cfg.wl.drop s.cursor).take 1,
                          cursor := if s.cursor < cfg.wl.length
                            then s.cursor + 1
                            else s.cursor }
  /-- Loop `while futures:` exits once every future has been processed and no
  refill happened: exhaustion (lines 299-300).  `noMatch` is terminal. -/
  | finish (s : BFState)
      (hph : s.phase = Phase.scanning)
      (hp : s.pending = []) (hd : s.doneQ = []) :
      Step cfg s { s with phase := Phase.noMatch }
  /-- A user interrupt reaches the coordinator (lines 302-306): this is
  the ONLY step that sets the shared stop flag, and it can fire at most
  once because it leaves the `scanning` phase for good. -/
  | interrupt (s : BFState)
      (hph : s.phase = Phase.scanning)
      (hflag : s.flag = false) :
      Step cfg s { s with flag := true, phase := Phase.interrupted }

/-- States reachable from the initial state. -/
inductive Reach (cfg : BFConfig) : BFState → Prop where
  | init : Reach cfg (initState cfg)
  | step {s s' : BFState} : Reach cfg s → Step cfg s s' → Reach cfg s'

/-- Inductive invariant of the scheduler, stated for the phases the
exhaustion argument runs through.  `found` and `interrupted` are terminal
for the coordinator, so nothing is claimed there.  Candidate conservation
is stated with occurrence counts (equivalent to permutation). -/
def Inv (cfg : BFConfig) (s : BFState) : Prop :=
  (s.phase = Phase.scanning ∨ s.phase = Phase.noMatch) →
    (s.flag = false ∧
     s.cursor ≤ cfg.wl.length ∧
     (∀ a, @List.count (List Nat) instBEqOfDecidableEq a
        (s.pending ++ s.doneQ.map Prod.fst ++ s.processed) =
        @List.count (List Nat) instBEqOfDecidableEq a (cfg.wl.take s.cursor)) ∧
     (∀ a, @List.count (List Nat) instBEqOfDecidableEq a s.attempted =
        @List.count (List Nat) instBEqOfDecidableEq a
          (s.doneQ.map Prod.fst ++ s.processed)) ∧
     (s.pending = [] → s.doneQ = [] → s.cursor = cfg.wl.length) ∧
     (s.phase = Phase.noMatch → s.pending = [] ∧ s.doneQ = []))

/-! Concrete instances used by counterexamples and witnesses. -/

/-- Twenty-nine bytes of `x`, an inline text payload sized to exercise the
capacity guard. -/
def c2payload : List Nat := List.replicate 29 120

/-- The frame `encode` embeds for `c2payload` under passphrase `k`. -/
def c2frame : List Nat :=
  b64encode (fernet_encrypt (generate_key [107]) c2payload) ++ SEPARATOR ++
    json_metadata messageTxt

/-- Frame for inline text `hi` under passphrase `a`. -/
def c3frame : List Nat :=
  b64encode (fernet_encrypt (generate_key [97]) [104, 105]) ++ SEPARATOR ++
    json_metadata messageTxt

/-- Bytes of the filename `secret.bin`. -/
def c4name : List Nat := [115, 101, 99, 114, 101, 116, 46, 98, 105, 110]

/-- Frame for the file payload `secret.bin` = `[1, 2, 3]` under
passphrase `a`. -/
def c4frame : List Nat :=
  b64encode (fernet_encrypt (generate_key [97]) [1, 2, 3]) ++ SEPARATOR ++
    json_metadata c4name

/-- A revealed byte string containing the separator twice. -/
def c5input : List Nat := [65, 0, 0, 0, 66, 0, 0, 0, 67]

/-- Bytes of the filename `a.bin`. -/
def c1name2 : List Nat := [97, 46, 98, 105, 110]

/-- Frame for inline text `hi` under passphrase `k`. -/
def c1textFrame : List Nat :=
  b64encode (fernet_encrypt (generate_key [107]) [104, 105]) ++ SEPARATOR ++
    json_metadata messageTxt

/-- Frame for the file payload `a.bin` = `[0, 255]` under passphrase `k`. -/
def c1fileFrame : List Nat :=
  b64encode (fernet_encrypt (generate_key [107]) [0, 255]) ++ SEPARATOR ++
    json_metadata c1name2

/-- Frame for a file payload whose base name is exactly `message.txt` and
whose single content byte `0xff` is not valid UTF-8. -/
def c1cexFrame : List Nat :=
  b64encode (fernet_encrypt (generate_key [107]) [255]) ++ SEPARATOR ++
    json_metadata messageTxt

/-- Frame for a file payload named `message.txt` with ASCII contents. -/
def c10frame : List Nat :=
  b64encode (fernet_encrypt (generate_key [107]) [111, 107]) ++ SEPARATOR ++
    json_metadata messageTxt

/-- One-candidate wordlist where the candidate matches. -/
def c6cfg : BFConfig := { wl := [[97]], ok := fun _ => true, W := 2 }

/-- State of `c6cfg` after a user interrupt in the initial state. -/
def c6s1 : BFState :=
  { cursor := 1, pending := [[97]], doneQ := [], processed := [],
    attempted := [], flag := true, phase := Phase.interrupted }

/-- State `c6s1` after a worker picks up the pending candidate and observes the
flag: no attempt, a `None` completion. -/
def c6s2 : BFState :=
  { cursor := 1, pending := [], doneQ := [([97], false)], processed := [],
    attempted := [], flag := true, phase := Phase.interrupted }

/-- State of `c6cfg` after the single candidate was attempted (successfully). -/
def c6cexS1 : BFState :=
  { cursor := 1, pending := [], doneQ := [([97], true)], processed := [],
    attempted := [[97]], flag := false, phase := Phase.scanning }

/-- State `c6cexS1` after the coordinator returns through the success path:
the run is over and the stop flag was never set. -/
def c6cexS2 : BFState :=
  { cursor := 1, pending := [], doneQ := [([97], true)], processed := [],
    attempted := [[97]], flag := false, phase := Phase.found [97] }

/-- One-candidate wordlist where no candidate matches. -/
def c7cfg : BFConfig := { wl := [[97]], ok := fun _ => false, W := 2 }

/-- State of `c7cfg` after the single candidate was attempted and failed. -/
def c7s1 : BFState :=
  { cursor := 1, pending := [], doneQ := [([97], false)], processed := [],
    attempted := [[97]], flag := false, phase := Phase.scanning }

/-- State `c7s1` after the coordinator processes the failed completion. -/
def c7s2 : BFState :=
  { cursor := 1, pending := [], doneQ := [], processed := [[97]],
    attempted := [[97]], flag := false, phase := Phase.scanning }

/-- State `c7s2` after the `while futures:` loop exits: exhaustion. -/
def c7s3 : BFState :=
  { cursor := 1, pending := [], doneQ := [], processed := [[97]],
    attempted := [[97]], flag := false, phase := Phase.noMatch }

/-! Basic lemmas about the base64 embedding. -/

theorem stdAlpha_range (i : Nat) : 43 ≤ stdAlpha i ∧ stdAlpha i ≤ 122 := by
  unfold stdAlpha; split_ifs <;> omega

theorem urlAlpha_range (i : Nat) : 43 ≤ urlAlpha i ∧ urlAlpha i ≤ 122 := by
  unfold urlAlpha; split_ifs <;> omega

theorem stdAlpha_ne_61 (i : Nat) : stdAlpha i ≠ 61 := by
  unfold stdAlpha; split_ifs <;> omega

theorem b64value_stdAlpha : ∀ i < 64, b64value (stdAlpha i) = some i := by decide

/-- Every byte of a base64 encoding lies in the printable range
`[43, 122]` (alphabet characters and the padding `=`), for either
alphabet used here. -/
theorem b64encodeWith_mem_range (alpha : Nat → Nat)
    (hA : ∀ i, 43 ≤ alpha i ∧ alpha i ≤ 122) :
    ∀ (x : List Nat), ∀ b ∈ b64encodeWith alpha x, 43 ≤ b ∧ b ≤ 122
  | [], b, hb => by simp [b64encodeWith] at hb
  | [a], b, hb => by
      simp only [b64encodeWith, List.mem_cons, List.not_mem_nil, or_false] at hb
      rcases hb with h | h | h | h <;> subst h <;> first | exact hA _ | omega
  | [a, a2], b, hb => by
      simp only [b64encodeWith, List.mem_cons, List.not_mem_nil, or_false] at hb
      rcases hb with h | h | h | h <;> subst h <;> first | exact hA _ | omega
  | a :: a2 :: a3 :: rest, b, hb => by
      simp only [b64encodeWith, List.mem_cons] at hb
      rcases hb with h | h | h | h | h
      · subst h; exact hA _
      · subst h; exact hA _
      · subst h; exact hA _
      · subst h; exact hA _
      · exact b64encodeWith_mem_range alpha hA rest b h

/-- Length of a base64 encoding: four characters per three-byte group,
rounded up. -/
theorem b64encodeWith_length (alpha : Nat → Nat) :
    ∀ (x : List Nat), (b64encodeWith alpha x).length = 4 * ((x.length + 2) / 3)
  | [] => by simp [b64encodeWith]
  | [a] => by simp [b64encodeWith]
  | [a, b] => by simp [b64encodeWith]
  | a :: b :: c :: rest => by
      have ih := b64encodeWith_length alpha rest
      simp only [b64encodeWith, List.length_cons, ih]
      omega

/-- Decoding inverts encoding on byte lists (all entries below 256). -/
theorem b64decode_b64encode :
    ∀ (x : List Nat), (∀ b ∈ x, b < 256) → b64decode (b64encode x) = some x
  | [], _ => by decide
  | [a], h => by
      have ha : a < 256 := h a (by simp)
      have h1 : b64value (stdAlpha (a / 4)) = some (a / 4) :=
        b64value_stdAlpha _ (by omega)
      have h2 : b64value (stdAlpha (a % 4 * 16)) = some (a % 4 * 16) :=
        b64value_stdAlpha _ (by omega)
      simp only [b64encode, b64encodeWith, b64decode, h1, h2, and_self, if_true, if_pos rfl]
      simp only [Option.some.injEq, List.cons.injEq, and_true]
      omega
  | [a, b], h => by
      have ha : a < 256 := h a (by simp)
      have hb : b < 256 := h b (by simp)
      have h1 : b64value (stdAlpha (a / 4)) = some (a / 4) :=
        b64value_stdAlpha _ (by omega)
      have h2 : b64value (stdAlpha (a % 4 * 16 + b / 16)) = some (a % 4 * 16 + b / 16) :=
        b64value_stdAlpha _ (by omega)
      have h3 : b64value (stdAlpha (b % 16 * 4)) = some (b % 16 * 4) :=
        b64value_stdAlpha _ (by omega)
      have hne : stdAlpha (b % 16 * 4) ≠ 61 := stdAlpha_ne_61 _
      simp [b64encode, b64encodeWith, b64decode, h1, h2, h3, hne]
      omega
  | a :: b :: c :: rest, h => by
      have ha : a < 256 := h a (by simp)
      have hb : b < 256 := h b (by simp)
      have hc : c < 256 := h c (by simp)
      have ih : b64decode (b64encode rest) = some rest :=
        b64decode_b64encode rest (fun x hx => h x (by simp [hx]))
      have h1 : b64value (stdAlpha (a / 4)) = some (a / 4) :=
        b64value_stdAlpha _ (by omega)
      have h2 : b64value (stdAlpha (a % 4 * 16 + b / 16)) = some (a % 4 * 16 + b / 16) :=
        b64value_stdAlpha _ (by omega)
      have h3 : b64value (stdAlpha (b % 16 * 4 + c / 64)) = some (b % 16 * 4 + c / 64) :=
        b64value_stdAlpha _ (by omega)
      have h4 : b64value (stdAlpha (c % 64)) = some (c % 64) :=
        b64value_stdAlpha _ (by omega)
      have hne3 : stdAlpha (b % 16 * 4 + c / 64) ≠ 61 := stdAlpha_ne_61 _
      have hne4 : stdAlpha (c % 64) ≠ 61 := stdAlpha_ne_61 _
      simp only [b64encode, b64encodeWith, b64decode, h1, h2, h3, h4,
        if_neg hne3, if_neg hne4] at ih ⊢
      simp only [ih, Option.some.injEq, List.cons.injEq, and_true]
      refine ⟨by omega, by omega, by omega⟩

theorem sha256model_length (x : List Nat) : (sha256model x).length = 32 := by
  simp [sha256model]

theorem generate_key_length (k : List Nat) : (generate_key k).length = 44 := by
  simp [generate_key, urlsafe_b64encode, b64encodeWith_length, sha256model_length]

theorem generate_key_bytes (k : List Nat) :
    ∀ b ∈ generate_key k, 43 ≤ b ∧ b ≤ 122 :=
  b64encodeWith_mem_range urlAlpha urlAlpha_range _

/-- Decrypting with the encrypting key recovers the plaintext
(library contract, given the 44-byte keys that `generate_key` yields). -/
theorem fernet_decrypt_encrypt (key data : List Nat) (hk : key.length = 44) :
    fernet_decrypt key (fernet_encrypt key data) = some data := by
  unfold fernet_decrypt fernet_encrypt
  rw [← hk, List.take_left, List.drop_left, if_pos rfl]

/-- Decrypting with a different 44-byte key fails verification
(library contract: wrong key gives `InvalidToken`, wrapped to `None`). -/
theorem fernet_decrypt_wrong_key (k1 k2 data : List Nat)
    (h1 : k1.length = 44) (hne : k1 ≠ k2) :
    fernet_decrypt k2 (fernet_encrypt k1 data) = none := by
  unfold fernet_decrypt fernet_encrypt
  rw [← h1, List.take_left, if_neg hne]

theorem escapeChar_safe (c : Nat) (h : 32 ≤ c ∧ c < 127 ∧ c ≠ 34 ∧ c ≠ 92) :
    escapeChar c = [c] := by
  unfold escapeChar
  split_ifs <;> first | rfl | omega

theorem hexDigit_ge_48 (n : Nat) : 48 ≤ hexDigit n := by
  unfold hexDigit; split_ifs <;> omega

/-- Every byte of an escaped character is at least 32 (in particular it is
never a zero byte, so metadata can never collide with the separator). -/
theorem escapeChar_ge_32 (c : Nat) : ∀ b ∈ escapeChar c, 32 ≤ b := by
  intro b hb
  have d1 := hexDigit_ge_48 (c / 4096 % 16)
  have d2 := hexDigit_ge_48 (c / 256 % 16)
  have d3 := hexDigit_ge_48 (c / 16 % 16)
  have d4 := hexDigit_ge_48 (c % 16)
  unfold escapeChar at hb
  split_ifs at hb <;>
    simp only [List.mem_cons, List.not_mem_nil, or_false] at hb <;> omega

theorem escapeAll_ge_32 (name : List Nat) : ∀ b ∈ escapeAll name, 32 ≤ b := by
  induction name with
  | nil => simp [escapeAll]
  | cons c rest ih =>
      intro b hb
      simp only [escapeAll, List.mem_append] at hb
      rcases hb with h | h
      · exact escapeChar_ge_32 c b h
      · exact ih b h

theorem json_metadata_ge_32 (name : List Nat) :
    ∀ b ∈ json_metadata name, 32 ≤ b := by
  intro b hb
  simp only [json_metadata, List.mem_append, List.mem_cons,
    List.not_mem_nil, or_false] at hb
  rcases hb with (h | h) | h
  · omega
  · exact escapeAll_ge_32 name b h
  · rcases h with h | h <;> omega

theorem parseJsonString_escapeAll (name tail : List Nat) (hn : SafeName name) :
    parseJsonString (escapeAll name ++ (34 :: tail)) = some (name, tail) := by
  induction name with
  | nil =>
      rw [escapeAll, List.nil_append, parseJsonString.eq_def]
      simp
  | cons c rest ih =>
      have hc := hn c (by simp)
      have hrest : SafeName rest := fun x hx => hn x (by simp [hx])
      rw [escapeAll, escapeChar_safe c hc]
      simp only [List.cons_append, List.nil_append]
      rw [parseJsonString.eq_def]
      simp only [if_neg (show ¬ c = 34 by omega), if_neg (show ¬ c = 92 by omega),
        if_neg (show ¬ c < 32 by omega), ih hrest]
      rfl

/-- Parsing inverts building for safe filenames. -/
theorem json_parse_filename_round (name : List Nat) (hn : SafeName name) :
    json_parse_filename (json_metadata name) = some name := by
  have h : escapeAll name ++ [34, 125] = escapeAll name ++ (34 :: [125]) := rfl
  rw [json_parse_filename, json_metadata, List.append_assoc,
    List.take_left' (by rfl), List.drop_left' (by rfl), if_pos rfl,
    h, parseJsonString_escapeAll name [125] hn]

/-- The fuel argument is irrelevant as soon as it covers the length. -/
theorem split3go_fuel (fuel : Nat) : ∀ (l : List Nat), l.length ≤ fuel →
    split3go fuel l = split3 l := by
  induction fuel using Nat.strong_induction_on with
  | _ fuel ih =>
    intro l hl
    match fuel, l with
    | fuel, [] => simp [split3, split3go]
    | 0, b :: rest => simp at hl
    | f + 1, b :: rest =>
        simp only [List.length_cons] at hl
        rw [split3, List.length_cons, split3go, split3go]
        have e1 : split3go f (rest.drop 2) = split3 (rest.drop 2) :=
          ih f (by omega) _ (by simp only [List.length_drop]; omega)
        have e2 : split3go rest.length (rest.drop 2) = split3 (rest.drop 2) :=
          ih rest.length (by omega) _ (by simp only [List.length_drop]; omega)
        have e3 : split3go f rest = split3 rest := ih f (by omega) _ (by omega)
        have e4 : split3go rest.length rest = split3 rest :=
          ih rest.length (by omega) _ (by omega)
        rw [e1, e2, e3, e4]

theorem split3_ne_nil (l : List Nat) : split3 l ≠ [] := by
  match l with
  | [] => simp [split3, split3go]
  | b :: rest =>
      rw [split3, List.length_cons, split3go]
      split_ifs
      · simp
      · cases hq : split3go rest.length rest with
        | nil => simp [hq]
        | cons h t => simp [hq]

/-- A list with no zero byte is a single fragment. -/
theorem split3_no_zero (l : List Nat) (h : ∀ b ∈ l, b ≠ 0) : split3 l = [l] := by
  induction l with
  | nil => rfl
  | cons b rest ih =>
      rw [split3, List.length_cons, split3go]
      rw [if_neg (by intro hc; exact h b (by simp) hc.1)]
      rw [split3go_fuel rest.length rest (by omega),
        ih (fun x hx => h x (by simp [hx]))]

/-- Prepending zero-free bytes extends the first fragment. -/
theorem split3_append (x : List Nat) (hx : ∀ b ∈ x, b ≠ 0) :
    ∀ (l : List Nat) (h t : _), split3 l = h :: t → split3 (x ++ l) = (x ++ h) :: t := by
  induction x with
  | nil => intro l h t hl; simpa using hl
  | cons b rest ih =>
      intro l h t hl
      have hb : b ≠ 0 := hx b (by simp)
      have hrest : ∀ y ∈ rest, y ≠ 0 := fun y hy => hx y (by simp [hy])
      rw [List.cons_append, split3, List.length_cons, split3go]
      rw [if_neg (by intro hc; exact hb hc.1)]
      rw [split3go_fuel (rest ++ l).length (rest ++ l) (by omega)]
      rw [ih hrest l h t hl]
      rfl

/-- Splitting a well-formed frame `x ++ SEPARATOR ++ y` with zero-free
halves yields exactly the two halves. -/
theorem split3_frame (x y : List Nat) (hx : ∀ b ∈ x, b ≠ 0) (hy : ∀ b ∈ y, b ≠ 0) :
    split3 (x ++ SEPARATOR ++ y) = [x, y] := by
  have hsep : split3 (SEPARATOR ++ y) = [] :: split3 y := by
    have h1 : SEPARATOR ++ y = 0 :: 0 :: 0 :: y := rfl
    rw [h1, split3]
    simp only [List.length_cons]
    rw [split3go]
    rw [if_pos (by simp)]
    simp only [List.drop_succ_cons, List.drop_zero]
    rw [split3go_fuel (y.length + 1 + 1) y (by omega)]
  rw [split3_no_zero y hy] at hsep
  rw [List.append_assoc]
  have := split3_append x hx (SEPARATOR ++ y) [] [y] hsep
  simpa using this

/-- ASCII byte lists are valid UTF-8 (inline text produced by
`input_data.encode()` from an ASCII string, for instance). -/
theorem validUtf8go_ascii (fuel : Nat) : ∀ (l : List Nat), l.length ≤ fuel →
    (∀ b ∈ l, b < 128) → validUtf8go fuel l = true := by
  induction fuel with
  | zero =>
      intro l hl _
      have : l = [] := List.length_eq_zero.1 (by omega)
      subst this
      rfl
  | succ fuel ih =>
      intro l hl h
      match l with
      | [] => rfl
      | a :: rest =>
          rw [validUtf8go, if_pos (h a (by simp))]
          exact ih rest (by simp only [List.length_cons] at hl; omega)
            (fun x hx => h x (by simp [hx]))

theorem validUtf8_ascii (l : List Nat) (h : ∀ b ∈ l, b < 128) :
    validUtf8 l = true :=
  validUtf8go_ascii l.length l (by omega) h

theorem safeName_messageTxt : SafeName messageTxt := by decide

theorem inv_init (cfg : BFConfig) (hW : 1 ≤ cfg.W) : Inv cfg (initState cfg) := by
  intro _
  refine ⟨rfl, Nat.min_le_right _ _, ?_, ?_, ?_, ?_⟩
  · intro a
    have h : cfg.wl.take (min cfg.W cfg.wl.length) = cfg.wl.take cfg.W := by
      rw [← List.take_take, List.take_length]
    simp [initState, h]
  · intro a
    simp [initState]
  · intro hpe _
    simp only [initState, List.take_eq_nil_iff] at hpe
    rcases hpe with h | h
    · omega
    · simp [initState, h]
  · intro h
    exact absurd h (by simp [initState])

theorem inv_step (cfg : BFConfig) (s s' : BFState)
    (hs : Inv cfg s) (hstep : Step cfg s s') : Inv cfg s' := by
  cases hstep with
  | run_attempt w p1 p2 hph hw hflag =>
      intro hph'
      have hph2 : s.phase = Phase.scanning ∨ s.phase = Phase.noMatch := hph'
      rcases hph with hsc | hin
      case inr => rw [hin] at hph2; rcases hph2 with h | h <;> exact Phase.noConfusion h
      obtain ⟨I1, I2, I3, I4, I5, I6⟩ := hs (Or.inl hsc)
      refine ⟨I1, I2, ?_, ?_, ?_, ?_⟩
      · intro a
        have h3 := I3 a
        rw [hw] at h3
        simp only [List.map_append, List.map_cons, List.map_nil, List.count_append,
          List.count_cons, List.count_nil] at h3 ⊢
        omega
      · intro a
        have h4 := I4 a
        simp only [List.map_append, List.map_cons, List.map_nil, List.count_append,
          List.count_cons, List.count_nil] at h4 ⊢
        omega
      · intro _ hde
        exact absurd hde (by simp)
      · intro h
        have h2 : s.phase = Phase.noMatch := h
        rw [hsc] at h2
        exact Phase.noConfusion h2
  | run_cancelled w p1 p2 hph hw hflag =>
      intro hph'
      have hph2 : s.phase = Phase.scanning ∨ s.phase = Phase.noMatch := hph'
      rcases hph with hsc | hin
      case inr => rw [hin] at hph2; rcases hph2 with h | h <;> exact Phase.noConfusion h
      obtain ⟨I1, _, _, _, _, _⟩ := hs (Or.inl hsc)
      rw [I1] at hflag
      exact Bool.noConfusion hflag
  | proc_success w q1 q2 hph hw =>
      intro hph'
      have hph2 : Phase.found w = Phase.scanning ∨ Phase.found w = Phase.noMatch := hph'
      rcases hph2 with h | h <;> exact Phase.noConfusion h
  | proc_fail w q1 q2 hph hw =>
      intro _
      obtain ⟨I1, I2, I3, I4, I5, I6⟩ := hs (Or.inl hph)
      refine ⟨I1, ?_, ?_, ?_, ?_, ?_⟩
      · dsimp only
        split_ifs with hc <;> omega
      · intro a
        have h3 := I3 a
        rw [hw] at h3
        by_cases hc : s.cursor < cfg.wl.length
        · rw [if_pos hc]
          have ht : cfg.wl.take (s.cursor + 1) =
              cfg.wl.take s.cursor ++ (cfg.wl.drop s.cursor).take 1 :=
            List.take_add cfg.wl s.cursor 1
          rw [ht]
          simp only [List.map_append, List.map_cons, List.map_nil, List.count_append,
            List.count_cons, List.count_nil] at h3 ⊢
          omega
        · rw [if_neg hc]
          have hdrop : cfg.wl.drop s.cursor = [] := by
            rw [List.drop_eq_nil_iff]
            omega
          rw [hdrop]
          simp only [List.map_append, List.map_cons, List.map_nil, List.count_append,
            List.count_cons, List.count_nil, List.take_nil] at h3 ⊢
          omega
      · intro a
        have h4 := I4 a
        rw [hw] at h4
        simp only [List.map_append, List.map_cons, List.map_nil, List.count_append,
          List.count_cons, List.count_nil] at h4 ⊢
        omega
      · intro hpe hde
        simp only [List.append_eq_nil] at hpe
        have hdrop : cfg.wl.drop s.cursor = [] := by
          have := hpe.2
          rcases List.take_eq_nil_iff.1 this with h | h
          · omega
          · exact h
        have hcur : cfg.wl.length ≤ s.cursor := by
          rw [List.drop_eq_nil_iff] at hdrop
          omega
        dsimp only
        split_ifs with hc
        · omega
        · omega
      · intro h
        have h2 : s.phase = Phase.noMatch := h
        rw [hph] at h2
        exact Phase.noConfusion h2
  | finish hph hp hd =>
      intro _
      obtain ⟨I1, I2, I3, I4, I5, I6⟩ := hs (Or.inl hph)
      exact ⟨I1, I2, I3, I4, I5, fun _ => ⟨hp, hd⟩⟩
  | interrupt hph hflag =>
      intro hph'
      have hph2 : Phase.interrupted = Phase.scanning ∨ Phase.interrupted = Phase.noMatch := hph'
      rcases hph2 with h | h <;> exact Phase.noConfusion h

theorem inv_reach (cfg : BFConfig) (hW : 1 ≤ cfg.W) (s : BFState)
    (hr : Reach cfg s) : Inv cfg s := by
  induction hr with
  | init => exact inv_init cfg hW
  | step _ hstep ih => exact inv_step cfg _ _ ih hstep

/-- In every reachable state, the stop flag is set only if the user
interrupt ran: no other step sets it (in particular, success does not). -/
theorem flag_reach (cfg : BFConfig) (s : BFState) (hr : Reach cfg s) :
    s.flag = true → s.phase = Phase.interrupted := by
  induction hr with
  | init => intro h; exact Bool.noConfusion h
  | step hr hstep ih =>
      cases hstep with
      | run_attempt w p1 p2 hph hw hflag =>
          intro h
          have h2 : _ = true := h
          exact ih h2
      | run_cancelled w p1 p2 hph hw hflag =>
          intro h
          have h2 : _ = true := h
          have := ih h2
          rcases hph with hsc | hin
          · rw [hsc] at this; exact Phase.noConfusion this
          · exact hin
      | proc_success w q1 q2 hph hw =>
          intro h
          have h2 : _ = true := h
          have := ih h2
          rw [hph] at this
          exact Phase.noConfusion this
      | proc_fail w q1 q2 hph hw =>
          intro h
          have h2 : _ = true := h
          have := ih h2
          rw [hph] at this
          exact Phase.noConfusion this
      | finish hph hp hd =>
          intro h
          have h2 : _ = true := h
          have := ih h2
          rw [hph] at this
          exact Phase.noConfusion this
      | interrupt hph hflag =>
          intro _
          rfl

/-! Putting the pipeline together: what `Stegano.decode` does to a frame
that `Stegano.encode` produced. -/

theorem encode_ok_frame (img : ImageDims) (p : PayloadInput) (k f : List Nat)
    (henc : encode img p k = Except.ok f) :
    f = b64encode (fernet_encrypt (generate_key k) (payload_bytes p)) ++
      SEPARATOR ++ json_metadata (payload_filename p) := by
  simp only [encode] at henc
  split at henc
  · exact Except.noConfusion henc
  · injection henc with h
    exact h.symm

/-- Master round-trip lemma: decoding an encoded frame with the matching
passphrase follows the filename branch of `Stegano.decode`: sentinel
filename prints/returns the text (when the bytes decode as UTF-8, else
the `decode()` call raises), any other filename is written back to a file
of that name (the single truncation effect). -/
theorem decode_encode (img : ImageDims) (p : PayloadInput) (k f : List Nat)
    (henc : encode img p k = Except.ok f)
    (hdata : ∀ b ∈ payload_bytes p, b < 256)
    (hname : SafeName (payload_filename p)) :
    decode (some f) k =
      if payload_filename p = messageTxt then
        (if validUtf8 (payload_bytes p) then
          (DecodeResult.text (payload_bytes p), ([] : List (List Nat)))
         else (DecodeResult.failed, []))
      else (DecodeResult.savedFile (payload_filename p) (payload_bytes p),
        [payload_filename p]) := by
  have hf := encode_ok_frame img p k f henc
  subst hf
  have hne : b64encode (fernet_encrypt (generate_key k) (payload_bytes p)) ++
      SEPARATOR ++ json_metadata (payload_filename p) ≠ [] := by
    simp [SEPARATOR]
  have hsplit : split3 (b64encode (fernet_encrypt (generate_key k) (payload_bytes p)) ++
      SEPARATOR ++ json_metadata (payload_filename p)) =
      [b64encode (fernet_encrypt (generate_key k) (payload_bytes p)),
        json_metadata (payload_filename p)] := by
    apply split3_frame
    · intro b hb
      have := b64encodeWith_mem_range stdAlpha stdAlpha_range _ b hb
      omega
    · intro b hb
      have := json_metadata_ge_32 _ b hb
      omega
  have hb64 : b64decode (b64encode (fernet_encrypt (generate_key k) (payload_bytes p))) =
      some (fernet_encrypt (generate_key k) (payload_bytes p)) := by
    apply b64decode_b64encode
    intro b hb
    unfold fernet_encrypt at hb
    rcases List.mem_append.1 hb with h | h
    · have := generate_key_bytes k b h
      omega
    · exact hdata b h
  have hjson := json_parse_filename_round _ hname
  have hdec : fernet_decrypt (generate_key k)
      (fernet_encrypt (generate_key k) (payload_bytes p)) = some (payload_bytes p) :=
    fernet_decrypt_encrypt _ _ (generate_key_length k)
  simp only [decode, if_neg hne, hsplit, hb64, hjson, hdec]

/-- Decoding an encoded frame with a key derived from a DIFFERENT
passphrase always ends in the failure path, whatever the filename branch. -/
theorem decode_encode_wrong_key (img : ImageDims) (p : PayloadInput) (k1 k2 f : List Nat)
    (henc : encode img p k1 = Except.ok f)
    (hdata : ∀ b ∈ payload_bytes p, b < 256)
    (hk : generate_key k1 ≠ generate_key k2) :
    (decode (some f) k2).1 = DecodeResult.failed := by
  have hf := encode_ok_frame img p k1 f henc
  subst hf
  have hne : b64encode (fernet_encrypt (generate_key k1) (payload_bytes p)) ++
      SEPARATOR ++ json_metadata (payload_filename p) ≠ [] := by
    simp [SEPARATOR]
  have hsplit : split3 (b64encode (fernet_encrypt (generate_key k1) (payload_bytes p)) ++
      SEPARATOR ++ json_metadata (payload_filename p)) =
      [b64encode (fernet_encrypt (generate_key k1) (payload_bytes p)),
        json_metadata (payload_filename p)] := by
    apply split3_frame
    · intro b hb
      have := b64encodeWith_mem_range stdAlpha stdAlpha_range _ b hb
      omega
    · intro b hb
      have := json_metadata_ge_32 _ b hb
      omega
  have hb64 : b64decode (b64encode (fernet_encrypt (generate_key k1) (payload_bytes p))) =
      some (fernet_encrypt (generate_key k1) (payload_bytes p)) := by
    apply b64decode_b64encode
    intro b hb
    unfold fernet_encrypt at hb
    rcases List.mem_append.1 hb with h | h
    · have := generate_key_bytes k1 b h
      omega
    · exact hdata b h
  have hdec : fernet_decrypt (generate_key k2)
      (fernet_encrypt (generate_key k1) (payload_bytes p)) = none :=
    fernet_decrypt_wrong_key _ _ _ (generate_key_length k1) hk
  simp only [decode, if_neg hne, hsplit, hb64, hdec]
  match hj : json_parse_filename (json_metadata (payload_filename p)) with
  | none => rfl
  | some name =>
      by_cases hm : name = messageTxt
      · simp [hm]
      · simp [hm]

/-! The claim theorems. -/

/-- C1 counterexample: the round trip fails as stated.  A file payload
whose base name is exactly `message.txt` with content byte `0xff` is
encoded successfully, but decoding with the same passphrase neither
returns the payload nor preserves the name: decode hits the sentinel
branch, `decrypted_data.decode()` raises on non-UTF-8 bytes, the outer
handler swallows it, and decode returns `None` with no file written. -/
theorem C1_cex :
    encode ⟨100, 100⟩ (PayloadInput.file messageTxt [255]) [107] = Except.ok c1cexFrame ∧
    decode (some c1cexFrame) [107] = (DecodeResult.failed, []) :=
  ⟨rfl, by decide⟩

/-- C1 (amended): the round trip holds for inline text payloads (the
decoded string is returned) and for file payloads whose base name differs
from `message.txt` (content and base name preserved in the written file);
file payloads named `message.txt` are instead returned as inline text
(see C10), so the claim's "for every payload" does not hold. -/
theorem C1_round_trip (img : ImageDims) (k p name content f g : List Nat)
    (hp : ∀ b ∈ p, b < 256) (hputf : validUtf8 p = true)
    (henc1 : encode img (PayloadInput.text p) k = Except.ok f)
    (hc : ∀ b ∈ content, b < 256)
    (hn : SafeName name) (hnm : name ≠ messageTxt)
    (henc2 : encode img (PayloadInput.file name content) k = Except.ok g) :
    decode (some f) k = (DecodeResult.text p, []) ∧
    decode (some g) k = (DecodeResult.savedFile name content, [name]) := by
  constructor
  · have h := decode_encode img (PayloadInput.text p) k f henc1 hp safeName_messageTxt
    rw [h]
    simp [payload_filename, payload_bytes, hputf]
  · have h := decode_encode img (PayloadInput.file name content) k g henc2 hc hn
    rw [h]
    simp [payload_filename, payload_bytes, hnm]

/-- C1 witness: concrete round trips through the whole pipeline, for the
text payload `hi` and for the file payload `a.bin` with non-ASCII
contents, both under passphrase `k`, on a 100 by 100 image. -/
theorem C1_round_trip_witness :
    decode (some c1textFrame) [107] = (DecodeResult.text [104, 105], []) ∧
    decode (some c1fileFrame) [107] = (DecodeResult.savedFile c1name2 [0, 255], [c1name2]) :=
  C1_round_trip ⟨100, 100⟩ [107] [104, 105] c1name2 [0, 255] c1textFrame c1fileFrame
    (by decide) (by decide) rfl (by decide) (by decide) (by decide) rfl

/-- C2 counterexample: the capacity guard does not bound the frame.  On a
294 by 1 image (capacity `294*3//8 = 110` bytes) a 29-byte text payload
passes the guard — `len(encrypted_data) + len(metadata) = 73 + 27 = 100`
is within 110 — so `encode` reaches the embedding adapter, although the
embedded frame `base64(ciphertext) + separator + metadata` is
`100 + 3 + 27 = 130 > 110` bytes long, contradicting the claim that
`len(Frame) > capacity` forces a failure.  The ciphertext length 73 is
that of the embedded Fernet model; the gap itself is structural and
independent of the token layout, since the frame always exceeds the
guarded size by the base64 expansion (a factor of about 4/3) plus the
3-byte separator, so for every token length there are image sizes that
slip through. -/
theorem C2_cex :
    encode ⟨294, 1⟩ (PayloadInput.text c2payload) [107] = Except.ok c2frame ∧
    c2frame.length = 130 ∧
    294 * 1 * 3 / 8 = 110 ∧
    c2frame.length > 294 * 1 * 3 / 8 :=
  ⟨rfl, by decide, by decide, by decide⟩

/-- C2 (amended): the guard `encode` actually enforces compares
`len(encrypted_data) + len(metadata)` — the ciphertext BEFORE base64
expansion and without the 3-byte separator — against
`width*height*3 // 8`; when that size exceeds the capacity, `encode`
fails before invoking the embedding adapter, reporting exactly those two
sizes, and no output file is produced. -/
theorem C2_guard (img : ImageDims) (p : PayloadInput) (k : List Nat)
    (h : (fernet_encrypt (generate_key k) (payload_bytes p)).length +
        (json_metadata (payload_filename p)).length > img.width * img.height * 3 / 8) :
    encode img p k = Except.error
      ((fernet_encrypt (generate_key k) (payload_bytes p)).length +
        (json_metadata (payload_filename p)).length,
       img.width * img.height * 3 / 8) := by
  simp only [encode]
  rw [if_pos h]

/-- C2 witness: a one-byte text payload cannot fit a 1 by 1 image
(capacity 0); `encode` reports (72, 0) and never builds a frame. -/
theorem C2_guard_witness :
    encode ⟨1, 1⟩ (PayloadInput.text [104]) [107] = Except.error (72, 0) := by
  rw [C2_guard ⟨1, 1⟩ (PayloadInput.text [104]) [107] (by decide)]
  rfl

/-- C3: decoding with a key derived from a different passphrase fails —
the `Fernet` tag verification rejects the token (`InvalidToken`, wrapped
by `Stegano.decrypt` into `None`), decode ends in its failure path, and
decrypt yields no data at all, never partially decrypted bytes.  Derived
keys differing is the hypothesis (for the real SHA-256 it follows from
collision resistance for any two distinct passphrases). -/
theorem C3_key_sensitivity (img : ImageDims) (p : PayloadInput) (k1 k2 f : List Nat)
    (hk : generate_key k1 ≠ generate_key k2)
    (hdata : ∀ b ∈ payload_bytes p, b < 256)
    (henc : encode img p k1 = Except.ok f) :
    (decode (some f) k2).1 = DecodeResult.failed ∧
    fernet_decrypt (generate_key k2)
      (fernet_encrypt (generate_key k1) (payload_bytes p)) = none :=
  ⟨decode_encode_wrong_key img p k1 k2 f henc hdata hk,
   fernet_decrypt_wrong_key _ _ _ (generate_key_length k1) hk⟩

/-- C3 witness: text `hi` encoded under passphrase `a` and decoded under
passphrase `b`. -/
theorem C3_key_sensitivity_witness :
    (decode (some c3frame) [98]).1 = DecodeResult.failed ∧
    fernet_decrypt (generate_key [98]) (fernet_encrypt (generate_key [97]) [104, 105]) = none :=
  C3_key_sensitivity ⟨100, 100⟩ (PayloadInput.text [104, 105]) [97] [98] c3frame
    (by decide) (by decide) rfl

/-- C4 (code bug): decoding a file payload with the wrong passphrase DOES
truncate the output file.  `Stegano.decrypt` returns `None`, decode still
reaches `open(output_filename, "wb")` — which creates or truncates the
file — before `f.write(None)` raises `TypeError`; the effect list records
the truncation while the outcome is the failure path.  The spec's
"no partial file written" is the evident intent; the code is a slip. -/
theorem C4_partial_file :
    encode ⟨100, 100⟩ (PayloadInput.file c4name [1, 2, 3]) [97] = Except.ok c4frame ∧
    decode (some c4frame) [98] = (DecodeResult.failed, [c4name]) :=
  ⟨rfl, by decide⟩

/-- C5 counterexample: decode does NOT split on the first separator
occurrence; it splits on every occurrence (Python `bytes.split`).  On a
revealed string with a duplicated separator, first-occurrence splitting
would give exactly two parts — which the claim says is the shape that
gets decoded — yet the code produces three fragments and fails. -/
theorem C5_cex :
    split3 c5input = [[65], [66], [67]] ∧
    splitFirst3 c5input = [[65], [66, 0, 0, 0, 67]] ∧
    (splitFirst3 c5input).length = 2 ∧
    (decode (some c5input) [107]).1 = DecodeResult.failed := by decide

/-- C5 (amended): parsing splits on EVERY occurrence of the 3-byte
separator; a well-formed frame (zero-free halves around one separator)
yields exactly two parts, and a non-empty revealed string whose split
does not have exactly two parts makes decode fail — fewer than two
parts through the explicit corrupted-format check, more than two through
the unpacking `ValueError` — with no decryption outcome and no file
touched. -/
theorem C5_parts (x y msg k : List Nat)
    (hx : ∀ b ∈ x, b ≠ 0) (hy : ∀ b ∈ y, b ≠ 0)
    (hm : msg ≠ []) (hlen : (split3 msg).length ≠ 2) :
    split3 (x ++ SEPARATOR ++ y) = [x, y] ∧
    ((decode (some msg) k).1 = DecodeResult.corrupted ∨
      (decode (some msg) k).1 = DecodeResult.failed) ∧
    (decode (some msg) k).2 = [] := by
  refine ⟨split3_frame x y hx hy, ?_⟩
  simp only [decode, if_neg hm]
  revert hlen
  rcases hs : split3 msg with - | ⟨a, - | ⟨b, - | ⟨c, t⟩⟩⟩ <;> intro hlen
  · simp
  · simp
  · exact absurd rfl hlen
  · have hcond : ¬ (t.length + 1 + 1 + 1 < 2) := by omega
    simp [hcond]

/-- C5 witness: a separator-free revealed string fails as corrupted, and
a well-formed two-fragment frame splits into its two halves. -/
theorem C5_parts_witness :
    split3 ([65] ++ SEPARATOR ++ [66]) = [[65], [66]] ∧
    ((decode (some [65]) [107]).1 = DecodeResult.corrupted ∨
      (decode (some [65]) [107]).1 = DecodeResult.failed) ∧
    (decode (some [65]) [107]).2 = [] :=
  C5_parts [65] [66] [65] [107] (by decide) (by decide) (by decide) (by decide)

/-- C6 counterexample: the cancellation flag is NOT set on success.  A
complete run on a one-word wordlist whose candidate matches reaches the
returned-success state with the stop flag still clear: the success path
only shuts the executor down (`cancel_futures=True`), it never calls
`self.stop_event.set()`, which happens solely in the
`KeyboardInterrupt` handler. -/
theorem C6_cex :
    Reach c6cfg c6cexS2 ∧ c6cexS2.phase = Phase.found [97] ∧
    c6cexS2.flag = false ∧ c6cexS2.attempted = [[97]] := by
  refine ⟨?_, rfl, rfl, rfl⟩
  have h1 : Step c6cfg (initState c6cfg) c6cexS1 :=
    Step.run_attempt (initState c6cfg) [97] [] [] (Or.inl rfl) rfl rfl
  have h2 : Step c6cfg c6cexS1 c6cexS2 :=
    Step.proc_success c6cexS1 [97] [] [] rfl rfl
  exact Reach.step (Reach.step Reach.init h1) h2

/-- C6 (amended): the cancellation flag is set only by the user-interrupt
handler (hence at most once, and not on success — see the
counterexample); every worker checks the flag before starting an attempt,
so once the flag is set no step adds a new attempt and the flag stays
set; and the returned-success state is terminal, so no attempt begins
after a match is found either (any state that still takes a step is not
in the found phase). -/
theorem C6_cancellation (cfg : BFConfig) (s s' : BFState)
    (hr : Reach cfg s) (hstep : Step cfg s s') :
    (s.flag = true →
      s.phase = Phase.interrupted ∧ s'.attempted = s.attempted ∧ s'.flag = true) ∧
    s.phase.isFound = false := by
  constructor
  · intro hf
    have hint := flag_reach cfg s hr hf
    refine ⟨hint, ?_⟩
    cases hstep with
    | run_attempt w p1 p2 hph hw hflag =>
        rw [hf] at hflag
        exact Bool.noConfusion hflag
    | run_cancelled w p1 p2 hph hw hflag => exact ⟨rfl, hf⟩
    | proc_success w q1 q2 hph hw =>
        rw [hint] at hph
        exact Phase.noConfusion hph
    | proc_fail w q1 q2 hph hw =>
        rw [hint] at hph
        exact Phase.noConfusion hph
    | finish hph hp hd =>
        rw [hint] at hph
        exact Phase.noConfusion hph
    | interrupt hph hflag =>
        rw [hf] at hflag
        exact Bool.noConfusion hflag
  · cases hstep with
    | run_attempt w p1 p2 hph hw hflag =>
        rcases hph with h | h <;> rw [h] <;> rfl
    | run_cancelled w p1 p2 hph hw hflag =>
        rcases hph with h | h <;> rw [h] <;> rfl
    | proc_success w q1 q2 hph hw => rw [hph]; rfl
    | proc_fail w q1 q2 hph hw => rw [hph]; rfl
    | finish hph hp hd => rw [hph]; rfl
    | interrupt hph hflag => rw [hph]; rfl

/-- C6 witness: after an interrupt in the initial one-candidate state,
the flagged state takes one more worker step, which completes the pending
future without starting an attempt. -/
theorem C6_cancellation_witness :
    (c6s1.flag = true →
      c6s1.phase = Phase.interrupted ∧ c6s2.attempted = c6s1.attempted ∧ c6s2.flag = true) ∧
    c6s1.phase.isFound = false := by
  have hr : Reach c6cfg c6s1 :=
    Reach.step Reach.init (Step.interrupt (initState c6cfg) rfl rfl)
  have hstep : Step c6cfg c6s1 c6s2 :=
    Step.run_cancelled c6s1 [97] [] [] (Or.inr rfl) rfl rfl
  exact C6_cancellation c6cfg c6s1 c6s2 hr hstep

/-- C7: on a wordlist with no matching passphrase, the scheduler reports
no-match only after every candidate has been attempted exactly once: in
any reachable no-match state, the multiset of attempted candidates is
exactly the wordlist (none skipped, none retried). -/
theorem C7_exhaustion (cfg : BFConfig) (s : BFState)
    (hok : ∀ w ∈ cfg.wl, cfg.ok w = false) (hW : 1 ≤ cfg.W)
    (hr : Reach cfg s) (hph : s.phase = Phase.noMatch) :
    s.attempted.Perm cfg.wl := by
  obtain ⟨_, I2, I3, I4, I5, I6⟩ := inv_reach cfg hW s hr (Or.inr hph)
  obtain ⟨hpe, hde⟩ := I6 hph
  have hcur := I5 hpe hde
  rw [List.perm_iff_count]
  intro a
  have h3 := I3 a
  have h4 := I4 a
  rw [hpe, hde] at h3
  rw [hde] at h4
  rw [hcur, List.take_length] at h3
  simp only [List.map_nil, List.nil_append, List.count_nil] at h3 h4
  omega

/-- C7 witness: a complete non-matching run on the one-candidate
wordlist: attempt, process the failure, exhaust. -/
theorem C7_exhaustion_witness : c7s3.attempted.Perm c7cfg.wl := by
  have h1 : Step c7cfg (initState c7cfg) c7s1 :=
    Step.run_attempt (initState c7cfg) [97] [] [] (Or.inl rfl) rfl rfl
  have h2 : Step c7cfg c7s1 c7s2 :=
    Step.proc_fail c7s1 [97] [] [] rfl rfl
  have h3 : Step c7cfg c7s2 c7s3 := Step.finish c7s2 rfl rfl rfl
  exact C7_exhaustion c7cfg c7s3 (by decide) (by decide)
    (Reach.step (Reach.step (Reach.step Reach.init h1) h2) h3) rfl

/-- C8: key derivation is the pure function `urlsafe_b64encode(sha256(.))`
of the passphrase alone — deterministic by construction — and its result
carries the 32-byte digest as 44 printable characters (base64url alphabet
plus `=` padding, all within ASCII `0x21..0x7e`). -/
theorem C8_key_derivation (k : List Nat) :
    generate_key k = urlsafe_b64encode (sha256model k) ∧
    (sha256model k).length = 32 ∧
    (generate_key k).length = 44 ∧
    (generate_key k).all (fun c => decide (33 ≤ c) && decide (c ≤ 126)) = true := by
  refine ⟨rfl, sha256model_length k, generate_key_length k, ?_⟩
  rw [List.all_eq_true]
  intro c hc
  have := generate_key_bytes k c hc
  simp only [Bool.and_eq_true, decide_eq_true_eq]
  omega

/-- C9: the candidate sequence is produced with the first fallback
encoding, `latin-1`, which decodes every byte sequence, so the result
never depends on the later encodings (they are arbitrary here), each line
of the file is yielded exactly once in order (stripped), and the
separately computed latin-1 line count used for progress equals the
number of candidates yielded. -/
theorem C9_wordlist (others : List (List Nat → Option (List Nat))) (content : List Nat) :
    read_wordlist others content = (splitLines content).map strip ∧
    total_words content = (read_wordlist others content).length := by
  have h : read_wordlist others content = (splitLines content).map strip := by
    simp [read_wordlist, tryEncodings, latin1_decode]
  exact ⟨h, by rw [h, total_words, List.length_map]⟩

/-- C10: a file payload whose base name is exactly `message.txt` is
indistinguishable from inline text: `encode` builds the identical image
frame for both, and on decode the sentinel branch never opens a file —
the decrypted bytes are returned as text (when they are valid UTF-8;
otherwise the string decode raises and nothing is written either). -/
theorem C10_sentinel (img : ImageDims) (content k f : List Nat)
    (henc : encode img (PayloadInput.file messageTxt content) k = Except.ok f)
    (hc : ∀ b ∈ content, b < 256) :
    encode img (PayloadInput.file messageTxt content) k =
      encode img (PayloadInput.text content) k ∧
    (decode (some f) k).2 = [] ∧
    (validUtf8 content = true → decode (some f) k = (DecodeResult.text content, [])) := by
  have h := decode_encode img (PayloadInput.file messageTxt content) k f henc hc
    safeName_messageTxt
  refine ⟨rfl, ?_, ?_⟩
  · rw [h]
    simp only [payload_filename, if_pos rfl, payload_bytes]
    by_cases hu : validUtf8 content <;> simp [hu]
  · intro hu
    rw [h]
    simp [payload_filename, payload_bytes, hu]

/-- C10 witness: the file payload `message.txt` = `ok` round-trips as
inline text with no file effect, and encodes to the same result as the
inline text `ok`. -/
theorem C10_sentinel_witness :
    encode ⟨100, 100⟩ (PayloadInput.file messageTxt [111, 107]) [107] =
      encode ⟨100, 100⟩ (PayloadInput.text [111, 107]) [107] ∧
    (decode (some c10frame) [107]).2 = [] ∧
    (validUtf8 [111, 107] = true → decode (some c10frame) [107] = (DecodeResult.text [111, 107], [])) :=
  C10_sentinel ⟨100, 100⟩ [111, 107] [107] c10frame rfl (by decide)

end ShadowByte
